import Mathlib

/-!
Shallow embedding of the hymnal text-processing core (text_cleaner.py and
struture_detector.py, with constants from config/config.py).

Lines and texts are modelled as lists of characters (`Line := List Char`);
a Python string `s` corresponds to `s.data`.  All functions are translated
from the Python source; Python-specific behaviours that matter here:

* `str.strip()` with no argument trims the ASCII whitespace characters
  space, tab, newline, carriage return, vertical tab and form feed;
* `str.split()` with no argument splits on runs of that same whitespace,
  producing no empty words;
* `text.split('\n')` produces `n+1` (possibly empty) pieces for `n`
  separators, in particular `[""]` for the empty string;
* `'sep'.join` interleaves the separator;
* `re.match(r'^(\d+)\s+(.+)', line)` on a line without newlines succeeds
  exactly when the line starts with a digit run followed by whitespace;
  greedy matching makes group 1 the maximal digit run and group 2 the
  remainder after the maximal whitespace run, except that when nothing
  follows that run the engine backtracks and group 2 is the final
  whitespace character;
* `re.match(r'^\d+\s', line)` succeeds exactly when the line starts with a
  digit run followed immediately by a whitespace character;
* float comparison `m / t > 0.6` agrees with the rational comparison
  `5 * m > 3 * t` for every line of feasible length, which is how the
  musical-density threshold test is rendered below.

The input texts fed to the detector are split on `'\n'`, so the individual
lines never contain a newline character; the regex helpers are written for
that situation.
-/

/-- A line (or a whole text) is a list of characters. -/
abbrev Line := List Char

/-- Python `str.strip()` whitespace set (ASCII part). -/
def pyIsSpace (c : Char) : Bool :=
  c == ' ' || c == '\t' || c == '\n' || c == '\r' || c == '\u000B' || c == '\u000C'

/-- Python `line.strip()`: drop leading and trailing whitespace. -/
def pyStrip (l : Line) : Line :=
  ((l.dropWhile pyIsSpace).reverse.dropWhile pyIsSpace).reverse

/-- Python `text.split(sep)` for a single-character separator: `n`
separators yield `n+1` (possibly empty) pieces. -/
def splitOnChar (sep : Char) : List Char → List (List Char)
  | [] => [[]]
  | c :: cs =>
    match splitOnChar sep cs with
    | [] => [[]]
    | a :: as => if c == sep then [] :: a :: as else (c :: a) :: as

/-- Helper for `pyWords`: accumulate the current word (reversed). -/
def pyWordsAux : List Char → List Char → List (List Char)
  | [], acc => if acc.isEmpty then [] else [acc.reverse]
  | c :: cs, acc =>
    if pyIsSpace c then
      if acc.isEmpty then pyWordsAux cs [] else acc.reverse :: pyWordsAux cs []
    else pyWordsAux cs (c :: acc)

/-- Python `line.split()` with no argument: whitespace-delimited words,
no empty words. -/
def pyWords (l : Line) : List (List Char) := pyWordsAux l []

/-- Python `sep.join(pieces)` for a single-character separator. -/
def joinWith (sep : Char) : List (List Char) → List Char
  | [] => []
  | [l] => l
  | l :: ls => l ++ sep :: joinWith sep ls

/-- Python `str.isupper()` (ASCII model): at least one letter and no
lowercase letter. -/
def pyIsUpper (l : Line) : Bool :=
  l.any (fun c => c.isAlpha) && l.all (fun c => !c.isLower)

/-- Python `str.upper()` on one character (ASCII, plus the circumflex o
appearing in the configured chorus keyword). -/
def pyUpperChar (c : Char) : Char :=
  if c == 'ô' then 'Ô' else c.toUpper

/-- Python substring test `needle in hay`. -/
def isSubList (n : List Char) : List Char → Bool
  | [] => n.isEmpty
  | c :: t => List.isPrefixOf n (c :: t) || isSubList n t

/-- Regex `^\d+\s` as used all over the detector: a digit run followed
immediately by a whitespace character. -/
def matchNumSpace (l : Line) : Bool :=
  !(l.takeWhile Char.isDigit).isEmpty &&
    (match l.dropWhile Char.isDigit with
     | c :: _ => pyIsSpace c
     | [] => false)

/-- Regex `^(\d+)\s+(.+)`: returns `(group 1, group 2)` on success.
Group 1 is the maximal leading digit run; group 2 is the remainder after
the maximal whitespace run that follows, except that when that remainder
is empty the engine backtracks one whitespace character (possible only
when the run has length at least two). -/
def matchNumTitle (l : Line) : Option (Line × Line) :=
  let ds := l.takeWhile Char.isDigit
  if ds.isEmpty then none
  else
    let r := l.dropWhile Char.isDigit
    let w := r.takeWhile pyIsSpace
    if w.isEmpty then none
    else
      let rest := r.dropWhile pyIsSpace
      if !rest.isEmpty then some (ds, rest)
      else if 2 ≤ w.length then some (ds, w.drop (w.length - 1))
      else none

namespace TextCleaner

/-- Character class of `re.findall(r'[:\-â€”.|,\'smdftlri]', line)` in
`_is_musical_notation`, written character for character in source order.
The source file stores the em-dash as the three mojibake characters
â, €, ”, so those three characters — and not the em-dash itself — are in
the class, and the letters are lowercase only (no IGNORECASE flag). -/
def inFindallClass (c : Char) : Bool :=
  c == ':' || c == '-' || c == 'â' || c == '€' || c == '”' || c == '.' ||
  c == '|' || c == ',' || c == '\'' || c == 's' || c == 'm' || c == 'd' ||
  c == 'f' || c == 't' || c == 'l' || c == 'r' || c == 'i'

/-- Numerator of the musical-density ratio: `len(re.findall(class, line))`. -/
def musicalCharCount (line : Line) : Nat :=
  line.countP inFindallClass

/-- Denominator of the musical-density ratio:
`len(line.replace(' ', ''))` — only the space character is removed. -/
def totalCharCount (line : Line) : Nat :=
  (line.filter (fun c => c != ' ')).length

/-- `_is_musical_notation`: true when the density ratio strictly exceeds
the threshold 0.6 (rendered as `5 * musical > 3 * total`). -/
def isMusicalLine (line : Line) : Bool :=
  let m := musicalCharCount line
  let t := totalCharCount line
  decide (0 < t) && decide (3 * t < 5 * m)

end TextCleaner

/-- Character class of claim C3, written from the claim's words: colon,
hyphen, em-dash, pipe, comma, apostrophe, or one of the letters
s, m, d, f, t, l, r, i in either upper or lower case. -/
def c3ClaimClass (c : Char) : Bool :=
  c == ':' || c == '-' || c == '—' || c == '|' || c == ',' || c == '\'' ||
  c == 's' || c == 'm' || c == 'd' || c == 'f' || c == 't' || c == 'l' ||
  c == 'r' || c == 'i' ||
  c == 'S' || c == 'M' || c == 'D' || c == 'F' || c == 'T' || c == 'L' ||
  c == 'R' || c == 'I'

/-- Character class of the amended claim C3: colon, hyphen, period, pipe,
comma, apostrophe, one of the three mojibake characters â, €, ” (the
source file's corrupted rendering of an em-dash), or one of the lowercase
letters s, m, d, f, t, l, r, i; uppercase letters are not counted. -/
def c3AmendedClass (c : Char) : Bool :=
  c == ':' || c == '-' || c == '.' || c == '|' || c == ',' || c == '\'' ||
  c == 'â' || c == '€' || c == '”' ||
  c == 's' || c == 'm' || c == 'd' || c == 'f' || c == 't' || c == 'l' ||
  c == 'r' || c == 'i'

/-- Quantifier of a single character-class atom in one of the configured
musical-cleaning regular expressions. -/
inductive Quant
  | one
  | plus
  | star
  | rep3plus
deriving Repr

/-- One quantified character-class atom. -/
structure RegItem where
  cls : Char → Bool
  q : Quant

/-- Start anchor of a pattern: none, `^`, or `\b`. -/
inductive StartAnchor
  | sNone
  | sCaret
  | sWordB
deriving Repr

/-- End anchor of a pattern: none, `$`, or `\b`. -/
inductive EndAnchor
  | eNone
  | eDollar
  | eWordB
deriving Repr

/-- A pattern shaped like every entry of `MUSICAL_PATTERNS`: an optional
start anchor, a sequence of quantified character classes, an optional end
anchor. -/
structure RePat where
  startA : StartAnchor
  items : List RegItem
  endA : EndAnchor

/-- Candidate consumption counts for one quantified class on a suffix, in
the order a greedy backtracking engine tries them (largest first). -/
def candCounts (cls : Char → Bool) (q : Quant) (s : List Char) : List Nat :=
  let m := (s.takeWhile cls).length
  match q with
  | .one => if 1 ≤ m then [1] else []
  | .plus => (List.range m).map (fun k => m - k)
  | .star => (List.range (m + 1)).map (fun k => m - k)
  | .rep3plus => if 3 ≤ m then (List.range (m - 2)).map (fun k => m - k) else []

/-- Last character of `s.take n`, falling back to `last` when `n = 0`;
used to track the character preceding the current position for `\b`. -/
def lastOfTaken (s : List Char) (n : Nat) (last : Option Char) : Option Char :=
  match (s.take n).getLast? with
  | some c => some c
  | none => last

/-- All ways the item sequence can consume a prefix of `s`, as pairs of
(character before the remainder, remainder), in backtracking priority
order: the head is the match a greedy engine reports first. -/
def matchItems : List RegItem → Option Char → List Char → List (Option Char × List Char)
  | [], last, s => [(last, s)]
  | it :: its, last, s =>
    (candCounts it.cls it.q s).flatMap
      (fun n => matchItems its (lastOfTaken s n last) (s.drop n))

/-- Regex word character `\w` (ASCII model): letter, digit or underscore. -/
def isWordChar (c : Char) : Bool := c.isAlphanum || c == '_'

/-- Word boundary between two (optional) adjacent characters. -/
def isBoundary (prev next : Option Char) : Bool :=
  (match prev with | some c => isWordChar c | none => false) !=
  (match next with | some c => isWordChar c | none => false)

/-- Start-anchor check at a position given whether it is the string start,
the previous character, and the remaining suffix. -/
def startOk (a : StartAnchor) (atStart : Bool) (prev : Option Char) (s : List Char) : Bool :=
  match a with
  | .sNone => true
  | .sCaret => atStart
  | .sWordB => isBoundary prev s.head?

/-- End-anchor check given the last consumed character and the remainder. -/
def endOk (a : EndAnchor) (last : Option Char) (rem : List Char) : Bool :=
  match a with
  | .eNone => true
  | .eDollar => rem.isEmpty
  | .eWordB => isBoundary last rem.head?

/-- Try to match pattern `p` at the current position (the start of `s`):
the first item assignment, in greedy backtracking order, whose end anchor
also holds.  Returns the number of characters consumed. -/
def matchAt (p : RePat) (atStart : Bool) (prev : Option Char) (s : List Char) : Option Nat :=
  if startOk p.startA atStart prev s then
    match (matchItems p.items prev s).find? (fun r => endOk p.endA r.1 r.2) with
    | some r => some (s.length - r.2.length)
    | none => none
  else none

/-- Scan of `re.sub(p, '', s)`: walk left to right; at each position, if
the pattern matches (nonempty), drop the matched characters and resume
after them, otherwise keep the character.  `fuel` is the initial length
of the subject (each step consumes at least one character).  Anchors are
evaluated against the original subject: `^` only at the very start, `\b`
against the preceding original character. -/
def subScan (p : RePat) : Nat → Bool → Option Char → List Char → List Char
  | 0, _, _, s => s
  | fuel + 1, atStart, prev, s =>
    match s with
    | [] => []
    | c :: cs =>
      match matchAt p atStart prev s with
      | some n =>
        if n == 0 then c :: subScan p fuel false (some c) cs
        else subScan p fuel false (lastOfTaken s n prev) (s.drop n)
      | none => c :: subScan p fuel false (some c) cs

/-- `re.sub(p, '', s)` for the pattern shapes used here. -/
def reSub (p : RePat) (s : List Char) : List Char :=
  subScan p s.length true none s

/-- Class `[:]` -/
def clsColon (c : Char) : Bool := c == ':'

/-- Class `[|]` -/
def clsPipe (c : Char) : Bool := c == '|'

/-- Class `[-—.:]` (pattern 1). -/
def clsDash1 (c : Char) : Bool := c == '-' || c == '—' || c == '.' || c == ':'

/-- Class `[:—.-]` (patterns 2 and 3 variants). -/
def clsPunct2 (c : Char) : Bool := c == ':' || c == '—' || c == '.' || c == '-'

/-- Class `[:.—-]` (patterns 3 and 9). -/
def clsPunct3 (c : Char) : Bool := c == ':' || c == '.' || c == '—' || c == '-'

/-- Class `[:\-—.]` (patterns 5, 6, 7, 10). -/
def clsPunct5 (c : Char) : Bool := c == ':' || c == '-' || c == '—' || c == '.'

/-- Class `[,']` -/
def clsComma (c : Char) : Bool := c == ',' || c == '\''

/-- Class `[smtdfrl]` under IGNORECASE. -/
def icSMTDFRL (c : Char) : Bool := ['s','m','t','d','f','r','l'].contains c.toLower

/-- Class `[smtdfrl,']` under IGNORECASE. -/
def icSMTDFRLc (c : Char) : Bool := icSMTDFRL c || clsComma c

/-- Class `[drmfslti]` under IGNORECASE. -/
def icDRMFSLTI (c : Char) : Bool := ['d','r','m','f','s','l','t','i'].contains c.toLower

/-- Class `[drmfslti,']` under IGNORECASE. -/
def icDRMFSLTIc (c : Char) : Bool := icDRMFSLTI c || clsComma c

/-- Class `[a-z]` under IGNORECASE: any ASCII letter. -/
def icAZ (c : Char) : Bool := 'a' ≤ c.toLower && c.toLower ≤ 'z'

/-- Class `[sd,':\-—|.\s]` under IGNORECASE (pattern 4). -/
def cls4 (c : Char) : Bool :=
  ['s','d'].contains c.toLower || c == ',' || c == '\'' || c == ':' ||
  c == '-' || c == '—' || c == '|' || c == '.' || pyIsSpace c

/-- Class `.` : any character but a newline. -/
def clsDot (c : Char) : Bool := c != '\n'

/-- Class `\s`. -/
def clsWS (c : Char) : Bool := pyIsSpace c

/-- The ten configured `MUSICAL_PATTERNS` from `config.py`, in order,
as applied with `re.IGNORECASE`:
1. `[:]+[-—.:]+[|]*`
2. `[smtdfrl]+[,']*\s*[:—.-]+\s*[smtdfrl,']*`
3. `[|]+\s*[:.—-]+\s*[|]*`
4. `^[sd,':\-—|.\s]+$`
5. `[drmfslti]+[,']*\s*[:\-—.]+\s*[drmfslti,']*`
6. `\b[a-z][,']+\s*[:\-—.]+`
7. `[:\-—.]{3,}`
8. `^[|]+.*[|]+$`
9. `^\s*[:.—-]+\s*$`
10. `\b[smtdfrl]+[,']*[:\-—.]+[smtdfrl,']*\b` -/
def MUSICAL_PATTERNS : List RePat :=
  [⟨.sNone, [⟨clsColon, .plus⟩, ⟨clsDash1, .plus⟩, ⟨clsPipe, .star⟩], .eNone⟩,
   ⟨.sNone, [⟨icSMTDFRL, .plus⟩, ⟨clsComma, .star⟩, ⟨clsWS, .star⟩,
             ⟨clsPunct2, .plus⟩, ⟨clsWS, .star⟩, ⟨icSMTDFRLc, .star⟩], .eNone⟩,
   ⟨.sNone, [⟨clsPipe, .plus⟩, ⟨clsWS, .star⟩, ⟨clsPunct3, .plus⟩,
             ⟨clsWS, .star⟩, ⟨clsPipe, .star⟩], .eNone⟩,
   ⟨.sCaret, [⟨cls4, .plus⟩], .eDollar⟩,
   ⟨.sNone, [⟨icDRMFSLTI, .plus⟩, ⟨clsComma, .star⟩, ⟨clsWS, .star⟩,
             ⟨clsPunct5, .plus⟩, ⟨clsWS, .star⟩, ⟨icDRMFSLTIc, .star⟩], .eNone⟩,
   ⟨.sWordB, [⟨icAZ, .one⟩, ⟨clsComma, .plus⟩, ⟨clsWS, .star⟩,
              ⟨clsPunct5, .plus⟩], .eNone⟩,
   ⟨.sNone, [⟨clsPunct5, .rep3plus⟩], .eNone⟩,
   ⟨.sCaret, [⟨clsPipe, .plus⟩, ⟨clsDot, .star⟩, ⟨clsPipe, .plus⟩], .eDollar⟩,
   ⟨.sCaret, [⟨clsWS, .star⟩, ⟨clsPunct3, .plus⟩, ⟨clsWS, .star⟩], .eDollar⟩,
   ⟨.sWordB, [⟨icSMTDFRL, .plus⟩, ⟨clsComma, .star⟩, ⟨clsPunct5, .plus⟩,
              ⟨icSMTDFRLc, .star⟩], .eWordB⟩]

namespace TextCleaner

/-- `_apply_pattern_cleaning`: apply the ten substitutions in order, then
collapse whitespace (`' '.join(line.split())`). -/
def applyPatternCleaning (line : Line) : Line :=
  let l := MUSICAL_PATTERNS.foldl (fun l p => reSub p l) line
  joinWith ' ' (pyWords l)

/-- A run of at least three consecutive ASCII letters (`[a-zA-Z]{3,}`). -/
def hasAlphaRun3 : List Char → Bool
  | a :: b :: c :: rest =>
    (a.isAlpha && b.isAlpha && c.isAlpha) || hasAlphaRun3 (b :: c :: rest)
  | _ => false

/-- `_has_valid_content`: non-empty, trimmed length above 2, and at least
one run of three consecutive letters. -/
def hasValidContent (line : Line) : Bool :=
  if line.isEmpty || (pyStrip line).length ≤ 2 then false
  else hasAlphaRun3 line

/-- Per-line part of `clean_musical_notation`: strip, drop blanks, drop
predominantly-musical lines, pattern-clean the rest, keep only lines with
valid content. -/
def cleanLines : List Line → List Line
  | [] => []
  | line :: rest =>
    let orig := pyStrip line
    if orig.isEmpty then cleanLines rest
    else if isMusicalLine orig then cleanLines rest
    else
      let cleaned := applyPatternCleaning orig
      if hasValidContent cleaned then cleaned :: cleanLines rest
      else cleanLines rest

/-- `clean_musical_notation` (the `clean` contract of the spec): split on
newlines, process each line, rejoin with newlines. -/
def clean (text : Line) : Line :=
  joinWith '\n' (cleanLines (splitOnChar '\n' text))

end TextCleaner

/-- A verse: detected or synthesized number, and its lines. -/
structure Verse where
  number : Line
  lines : List Line
deriving Repr, DecidableEq

/-- A song: number, title, verses, chorus lines. -/
structure Song where
  number : Line
  title : Line
  verses : List Verse
  chorus : List Line
deriving Repr, DecidableEq

/-- Result of structure detection: book title, songs, and the
total-non-blank-lines metadata entry (the extraction timestamp of the
source is wall-clock output and is not modelled). -/
structure DetectResult where
  title : Line
  songs : List Song
  totalLines : Nat
deriving Repr, DecidableEq

namespace StructureDetector

/-- `CHORUS_KEYWORDS` from `config.py`. -/
def CHORUS_KEYWORDS : List Line :=
  ["CHORUS".data, "CORO".data, "REFRAIN".data, "CÔRO".data]

/-- `MAX_VERSE_LINES` from `config.py`. -/
def MAX_VERSE_LINES : Nat := 6

/-- `MAX_CHORUS_LINES` from `config.py`. -/
def MAX_CHORUS_LINES : Nat := 30

/-- `_is_chorus_line`: some keyword occurs in the uppercased line. -/
def isChorusLine (line : Line) : Bool :=
  CHORUS_KEYWORDS.any (fun kw => isSubList kw (line.map pyUpperChar))

/-- `_is_song_title`: lookahead disambiguation of headers against
numbered-verse sequences (3 or more leading-number lines among the next
5, starting at `i`, when the immediately next line is a leading-number
line). -/
def isSongTitle (lines : List Line) (i : Nat) : Bool :=
  if i + 1 < lines.length then
    if matchNumSpace (pyStrip (lines.getD (i + 1) [])) then
      let seq := (List.range' i (min (i + 5) lines.length - i)).countP
        (fun j => matchNumSpace (pyStrip (lines.getD j [])))
      if 3 ≤ seq then false else true
    else true
  else true

/-- `_is_main_title`: all uppercase, longer than 10 characters, no title
assigned yet, no song open. -/
def isMainTitle (line : Line) (structTitle : Line) (cur : Option Song) : Bool :=
  pyIsUpper line && decide (10 < line.length) && structTitle.isEmpty && cur.isNone

/-- Leading `re.match(r'^\d+', line)` test: the line starts with a digit. -/
def startsWithDigit (l : Line) : Bool :=
  match l with
  | c :: _ => c.isDigit
  | [] => false

/-- `_is_potential_verse`: longer than 5 characters, not digit-initial,
more than one word, not all uppercase. -/
def isPotentialVerse (line : Line) : Bool :=
  decide (5 < line.length) && !startsWithDigit line &&
  decide (1 < (pyWords line).length) && !pyIsUpper line

/-- Collection loop of `_extract_chorus`.  The Python loop runs while
`j < len(lines) and j < i + MAX_CHORUS_LINES`; here `fuel` carries the
second bound as `i + MAX_CHORUS_LINES - j`, so it starts at
`MAX_CHORUS_LINES - 1` for `j = i + 1`. -/
def chorusGo (lines : List Line) : Nat → Nat → List Line → List Line × Nat
  | 0, j, acc => (acc, j)
  | fuel + 1, j, acc =>
    if j < lines.length then
      let c := pyStrip (lines.getD j [])
      if c.isEmpty then chorusGo lines fuel (j + 1) acc
      else if matchNumSpace c && decide (3 < (pyWords c).length) then (acc, j)
      else if isChorusLine c then (acc, j)
      else chorusGo lines fuel (j + 1) (acc ++ [c])
    else (acc, j)

/-- `_extract_chorus`: collect chorus lines after the marker at `i`. -/
def extractChorus (lines : List Line) (i : Nat) : List Line × Nat :=
  chorusGo lines (MAX_CHORUS_LINES - 1) (i + 1) []

/-- Collection loop of `_extract_numbered_verse`: runs while
`j < len(lines)` (carried by `fuel = len(lines) - j`) and fewer than
`MAX_VERSE_LINES` lines are collected; stops at any leading-number line
or chorus-keyword line. -/
def verseGo (lines : List Line) : Nat → Nat → List Line → List Line × Nat
  | 0, j, acc => (acc, j)
  | fuel + 1, j, acc =>
    if acc.length < MAX_VERSE_LINES then
      let nl := pyStrip (lines.getD j [])
      if nl.isEmpty then verseGo lines fuel (j + 1) acc
      else if matchNumSpace nl then (acc, j)
      else if isChorusLine nl then (acc, j)
      else verseGo lines fuel (j + 1) (acc ++ [nl])
    else (acc, j)

/-- `_extract_numbered_verse`: seed with the captured text when it has at
most 15 words, collect continuation lines, emit only when the joined text
is longer than 10 characters; on every non-emitting path return cursor
`i + 1`. -/
def extractNumberedVerse (lines : List Line) (i : Nat) (verseNum verseText : Line) :
    Option Verse × Nat :=
  if (pyWords verseText).length ≤ 15 then
    let r := verseGo lines (lines.length - (i + 1)) (i + 1) [verseText]
    if 10 < (pyStrip (joinWith ' ' r.1)).length then
      (some ⟨verseNum, r.1⟩, r.2)
    else (none, i + 1)
  else (none, i + 1)

/-- Collection loop of `_extract_unnumbered_verse`: at most 4 lines,
stopping at a leading-number line with more than 3 words or a
chorus-keyword line. -/
def unverseGo (lines : List Line) : Nat → Nat → List Line → List Line × Nat
  | 0, j, acc => (acc, j)
  | fuel + 1, j, acc =>
    if acc.length < 4 then
      let nl := pyStrip (lines.getD j [])
      if nl.isEmpty then unverseGo lines fuel (j + 1) acc
      else if matchNumSpace nl && decide (3 < (pyWords nl).length) then (acc, j)
      else if isChorusLine nl then (acc, j)
      else unverseGo lines fuel (j + 1) (acc ++ [nl])
    else (acc, j)

/-- `_extract_unnumbered_verse`: seed with the stripped current line,
collect up to 4 lines, emit when this is the song's first verse or the
joined text is longer than 15 characters; the number is the synthesized
1-based position. -/
def extractUnnumberedVerse (lines : List Line) (i : Nat) (cur : Song) :
    Option Verse × Nat :=
  let r := unverseGo lines (lines.length - (i + 1)) (i + 1) [pyStrip (lines.getD i [])]
  if cur.verses.length == 0 || decide (15 < (joinWith ' ' r.1).length) then
    (some ⟨(Nat.repr (cur.verses.length + 1)).data, r.1⟩, r.2)
  else (none, r.2)

/-- `_filter_valid_songs`: keep songs with a verse or a nonempty chorus. -/
def filterValidSongs (songs : List Song) : List Song :=
  songs.filter (fun s => !s.verses.isEmpty || !s.chorus.isEmpty)

/-- Mutable state of the detection loop: cursor, book title, closed songs,
currently open song. -/
structure DetState where
  i : Nat
  title : Line
  songs : List Song
  cur : Option Song
deriving Repr, DecidableEq

/-- One iteration of the `while i < len(lines)` body of
`detect_structure`: classify the line at the cursor (first match wins)
and advance. -/
def detectStep (lines : List Line) (st : DetState) : DetState :=
  let line := pyStrip (lines.getD st.i [])
  if line.isEmpty then { st with i := st.i + 1 }
  else
    let sm := matchNumTitle line
    let isHeader :=
      match sm with
      | some (_, t) => decide (3 < t.length) && isSongTitle lines st.i
      | none => false
    if isHeader then
      match sm with
      | some (num, t) =>
        { st with
          i := st.i + 1
          songs := match st.cur with | some s => st.songs ++ [s] | none => st.songs
          cur := some ⟨num, pyStrip t, [], []⟩ }
      | none => { st with i := st.i + 1 }
    else if isMainTitle line st.title st.cur then
      { st with i := st.i + 1, title := line }
    else if isChorusLine line && st.cur.isSome then
      match st.cur with
      | some s =>
        let r := extractChorus lines st.i
        { st with i := r.2, cur := some { s with chorus := r.1 } }
      | none => { st with i := st.i + 1 }
    else if (matchNumTitle line).isSome && st.cur.isSome then
      match matchNumTitle line, st.cur with
      | some (num, t), some s =>
        let r := extractNumberedVerse lines st.i num t
        { st with
          i := r.2
          cur := some { s with
            verses := s.verses ++ (match r.1 with | some v => [v] | none => []) } }
      | _, _ => { st with i := st.i + 1 }
    else if st.cur.isSome && isPotentialVerse line then
      match st.cur with
      | some s =>
        let r := extractUnnumberedVerse lines st.i s
        { st with
          i := r.2
          cur := some { s with
            verses := s.verses ++ (match r.1 with | some v => [v] | none => []) } }
      | none => { st with i := st.i + 1 }
    else { st with i := st.i + 1 }

/-- Finalization of `detect_structure`: close the open song, then filter
out songs without content. -/
def finalizeSongs (songs : List Song) (cur : Option Song) : List Song :=
  filterValidSongs (match cur with | some s => songs ++ [s] | none => songs)

/-- The `while i < len(lines)` loop, with fuel.  Any fuel at least
`lines.length - st.i` gives the loop's true result, since every step
advances the cursor by at least one. -/
def detectGo (lines : List Line) : Nat → DetState → Line × List Song
  | 0, st => (st.title, finalizeSongs st.songs st.cur)
  | fuel + 1, st =>
    if st.i < lines.length then detectGo lines fuel (detectStep lines st)
    else (st.title, finalizeSongs st.songs st.cur)

/-- `detect_structure` (the `detect` contract of the spec): split the
text, run the classification loop, finalize. -/
def detectStructure (text : Line) : DetectResult :=
  let lines := splitOnChar '\n' text
  let r := detectGo lines lines.length ⟨0, [], [], none⟩
  ⟨r.1, r.2, lines.countP (fun l => !(pyStrip l).isEmpty)⟩

end StructureDetector

/-- The input of claim C1 and of the spec's detector-boundary property. -/
def c1Input : Line :=
  "1 Amazing Grace\nHow sweet the sound\n2 Second Song\nMore words here\n".data

/-- A small input whose detection result is one song with one verse; used
to instantiate the universally quantified invariants on a concrete run. -/
def sampleInput : Line :=
  "1 Song Title\nla la la la\n".data

/-- The non-idempotence input of claim C4. -/
def c4Input : Line := "SSSS- timid".data

/-- Well-formedness of a stored verse: between 1 and `MAX_VERSE_LINES`
lines, each non-empty and free of leading/trailing whitespace. -/
def GoodVerse (v : Verse) : Prop :=
  1 ≤ v.lines.length ∧ v.lines.length ≤ 6 ∧
  ∀ l ∈ v.lines, l ≠ [] ∧ pyStrip l = l

/-- Loop invariant for the detection state: all verses stored so far —
in closed songs and in the open song — are well-formed. -/
def GoodState (st : StructureDetector.DetState) : Prop :=
  (∀ s ∈ st.songs, ∀ v ∈ s.verses, GoodVerse v) ∧
  (∀ s, st.cur = some s → ∀ v ∈ s.verses, GoodVerse v)

section Helpers

variable {α : Type}

theorem dropWhile_head?_false (p : α → Bool) (l : List α) (c : α)
    (h : (l.dropWhile p).head? = some c) : p c = false := by
  induction l with
  | nil => simp at h
  | cons a t ih =>
    by_cases hpa : p a = true
    · rw [List.dropWhile_cons_of_pos hpa] at h
      exact ih h
    · rw [List.dropWhile_cons_of_neg hpa] at h
      simp at h
      subst h
      exact Bool.not_eq_true _ ▸ (by simpa using hpa)

theorem getLast?_cons_ne (a : α) (t : List α) (ht : t ≠ []) :
    (a :: t).getLast? = t.getLast? := by
  cases t with
  | nil => simp at ht
  | cons b u => simp [List.getLast?]

theorem dropWhile_getLast?_eq (p : α → Bool) (l : List α)
    (h : l.dropWhile p ≠ []) : (l.dropWhile p).getLast? = l.getLast? := by
  induction l with
  | nil => simp at h
  | cons a t ih =>
    by_cases hpa : p a = true
    · rw [List.dropWhile_cons_of_pos hpa] at h ⊢
      have ht : t ≠ [] := by
        intro he
        rw [he] at h
        exact h rfl
      rw [ih h, getLast?_cons_ne a t ht]
    · rw [List.dropWhile_cons_of_neg hpa]

theorem dropWhile_eq_self (p : α → Bool) (l : List α)
    (h : ∀ c, l.head? = some c → p c = false) : l.dropWhile p = l := by
  cases l with
  | nil => rfl
  | cons a t =>
    have := h a rfl
    simp [List.dropWhile_cons, this]

theorem mem_takeWhile_sat (p : α → Bool) (l : List α) (c : α)
    (h : c ∈ l.takeWhile p) : p c = true := by
  induction l with
  | nil => simp at h
  | cons a t ih =>
    by_cases hpa : p a = true
    · rw [List.takeWhile_cons_of_pos hpa] at h
      rcases List.mem_cons.mp h with h | h
      · subst h; exact hpa
      · exact ih h
    · rw [List.takeWhile_cons_of_neg hpa] at h
      simp at h

end Helpers

theorem pyStrip_nil : pyStrip [] = [] := rfl

theorem pyStrip_getLast?_false (l : Line) (c : Char)
    (h : (pyStrip l).getLast? = some c) : pyIsSpace c = false := by
  unfold pyStrip at h
  rw [List.getLast?_reverse] at h
  exact dropWhile_head?_false pyIsSpace _ c h

theorem pyStrip_head?_false (l : Line) (c : Char)
    (h : (pyStrip l).head? = some c) : pyIsSpace c = false := by
  unfold pyStrip at h
  rw [List.head?_reverse] at h
  by_cases hd : ((l.dropWhile pyIsSpace).reverse.dropWhile pyIsSpace) = []
  · rw [hd] at h
    simp at h
  · rw [dropWhile_getLast?_eq pyIsSpace _ hd, List.getLast?_reverse] at h
    exact dropWhile_head?_false pyIsSpace l c h

theorem pyStrip_eq_self (l : Line)
    (h1 : ∀ c, l.head? = some c → pyIsSpace c = false)
    (h2 : ∀ c, l.getLast? = some c → pyIsSpace c = false) : pyStrip l = l := by
  unfold pyStrip
  rw [dropWhile_eq_self pyIsSpace l h1]
  rw [dropWhile_eq_self pyIsSpace l.reverse (fun c hc => h2 c ((List.head?_reverse l) ▸ hc))]
  exact List.reverse_reverse l

theorem pyStrip_idem (l : Line) : pyStrip (pyStrip l) = pyStrip l :=
  pyStrip_eq_self (pyStrip l) (pyStrip_head?_false l) (pyStrip_getLast?_false l)

theorem pyStrip_ne_nil_head (l : Line) (h : pyStrip l ≠ []) :
    ∃ c, (pyStrip l).head? = some c ∧ pyIsSpace c = false := by
  cases hl : pyStrip l with
  | nil => exact absurd hl h
  | cons a t =>
    refine ⟨a, rfl, ?_⟩
    exact pyStrip_head?_false l a (by rw [hl]; rfl)

theorem joinWith_length_ge (sep : Char) (ls : List Line)
    (h : ∀ l ∈ ls, l ≠ []) : 2 * ls.length - 1 ≤ (joinWith sep ls).length := by
  induction ls with
  | nil => simp [joinWith]
  | cons l ls ih =>
    cases ls with
    | nil =>
      have hl := h l (by simp)
      have : 1 ≤ l.length := List.length_pos.mpr hl
      simpa [joinWith] using this
    | cons x xs =>
      have hl := h l (by simp)
      have h1 : 1 ≤ l.length := List.length_pos.mpr hl
      have ih' := ih (fun m hm => h m (List.mem_cons_of_mem l hm))
      have : joinWith sep (l :: x :: xs) = l ++ sep :: joinWith sep (x :: xs) := rfl
      rw [this]
      simp only [List.length_append, List.length_cons] at ih' ⊢
      omega

theorem joinWith_head? (sep : Char) (l : Line) (ls : List Line) (h : l ≠ []) :
    (joinWith sep (l :: ls)).head? = l.head? := by
  cases ls with
  | nil => rfl
  | cons x xs =>
    have : joinWith sep (l :: x :: xs) = l ++ sep :: joinWith sep (x :: xs) := rfl
    rw [this]
    cases l with
    | nil => exact absurd rfl h
    | cons a t => rfl

theorem joinWith_getLast? (sep : Char) (ls : List Line) (l : Line)
    (h : ls.getLast? = some l) (hne : l ≠ []) :
    (joinWith sep ls).getLast? = l.getLast? := by
  induction ls with
  | nil => simp at h
  | cons x xs ih =>
    cases xs with
    | nil =>
      simp [List.getLast?] at h
      subst h
      rfl
    | cons y ys =>
      have hx : (x :: y :: ys).getLast? = (y :: ys).getLast? :=
        getLast?_cons_ne x (y :: ys) (by simp)
      rw [hx] at h
      have ih' := ih h
      have hj : joinWith sep (x :: y :: ys) = x ++ sep :: joinWith sep (y :: ys) := rfl
      rw [hj]
      rw [List.getLast?_append_of_ne_nil]
      · rw [getLast?_cons_ne sep _ ?hne2]
        · exact ih'
        case hne2 =>
          intro hjoin
          have : (y :: ys).getLast? = some l := h
          cases ys with
          | nil =>
            simp [List.getLast?] at this
            subst this
            simp [joinWith] at hjoin
            exact hne hjoin
          | cons z zs =>
            have : joinWith sep (y :: z :: zs) = y ++ sep :: joinWith sep (z :: zs) := rfl
            rw [this] at hjoin
            simp at hjoin
      · simp

theorem splitOnChar_no_sep (sep : Char) (l : List Char) (h : sep ∉ l) :
    splitOnChar sep l = [l] := by
  induction l with
  | nil => rfl
  | cons c cs ih =>
    have hc : c ≠ sep := fun he => h (he ▸ List.mem_cons_self c cs)
    have hcs : sep ∉ cs := fun hm => h (List.mem_cons_of_mem c hm)
    rw [splitOnChar, ih hcs]
    simp [beq_iff_eq, hc]

theorem splitOnChar_append (sep : Char) (l rest : List Char) (h : sep ∉ l) :
    splitOnChar sep (l ++ sep :: rest) = l :: splitOnChar sep rest := by
  induction l with
  | nil =>
    simp only [List.nil_append]
    rw [splitOnChar]
    cases hs : splitOnChar sep rest with
    | nil =>
      exfalso
      induction rest with
      | nil => simp [splitOnChar] at hs
      | cons r rs ihr =>
        rw [splitOnChar] at hs
        cases h2 : splitOnChar sep rs with
        | nil => exact ihr h2
        | cons b bs =>
          rw [h2] at hs
          by_cases hr : (r == sep) = true <;> simp [hr] at hs
    | cons a as => simp
  | cons c cs ih =>
    have hc : c ≠ sep := fun he => h (he ▸ List.mem_cons_self c cs)
    have hcs : sep ∉ cs := fun hm => h (List.mem_cons_of_mem c hm)
    have ih' := ih hcs
    simp only [List.cons_append]
    rw [splitOnChar, ih']
    simp [beq_iff_eq, hc]

theorem splitOnChar_joinWith (sep : Char) (ls : List (List Char)) (h : ls ≠ [])
    (h2 : ∀ l ∈ ls, sep ∉ l) : splitOnChar sep (joinWith sep ls) = ls := by
  induction ls with
  | nil => exact absurd rfl h
  | cons l ls ih =>
    cases ls with
    | nil => exact splitOnChar_no_sep sep l (h2 l (by simp))
    | cons x xs =>
      have hj : joinWith sep (l :: x :: xs) = l ++ sep :: joinWith sep (x :: xs) := rfl
      rw [hj, splitOnChar_append sep l _ (h2 l (by simp))]
      rw [ih (by simp) (fun m hm => h2 m (List.mem_cons_of_mem l hm))]

theorem pyWordsAux_sound (l : List Char) (acc : List Char)
    (hacc : ∀ c ∈ acc, pyIsSpace c = false) :
    ∀ w ∈ pyWordsAux l acc, w ≠ [] ∧ ∀ c ∈ w, pyIsSpace c = false := by
  induction l generalizing acc with
  | nil =>
    intro w hw
    by_cases ha : acc.isEmpty
    · simp [pyWordsAux, ha] at hw
    · simp [pyWordsAux, ha] at hw
      subst hw
      constructor
      · intro he
        rw [List.isEmpty_iff] at ha
        exact ha (by simpa using congrArg List.reverse he)
      · intro c hc
        exact hacc c (List.mem_reverse.mp hc)
  | cons c cs ih =>
    intro w hw
    by_cases hsp : pyIsSpace c = true
    · by_cases ha : acc.isEmpty
      · simp only [pyWordsAux, hsp, if_pos rfl, ha, if_true] at hw
        exact ih [] (by simp) w hw
      · simp only [pyWordsAux, hsp, if_pos rfl, ha, if_false] at hw
        rcases List.mem_cons.mp hw with hw | hw
        · subst hw
          constructor
          · intro he
            rw [List.isEmpty_iff] at ha
            exact ha (by simpa using congrArg List.reverse he)
          · intro d hd
            exact hacc d (List.mem_reverse.mp hd)
        · exact ih [] (by simp) w hw
    · simp only [pyWordsAux, hsp, if_neg (by simp [hsp] : ¬pyIsSpace c = true)] at hw
      refine ih (c :: acc) ?_ w hw
      intro d hd
      rcases List.mem_cons.mp hd with hd | hd
      · subst hd
        simpa using hsp
      · exact hacc d hd

theorem pyWords_sound (l : List Char) :
    ∀ w ∈ pyWords l, w ≠ [] ∧ ∀ c ∈ w, pyIsSpace c = false :=
  pyWordsAux_sound l [] (by simp)

theorem pyStrip_joinWith (ls : List Line) (hne : ls ≠ [])
    (h : ∀ l ∈ ls, l ≠ [] ∧ pyStrip l = l) :
    pyStrip (joinWith ' ' ls) = joinWith ' ' ls := by
  cases ls with
  | nil => exact absurd rfl hne
  | cons x xs =>
    have hx := h x (by simp)
    apply pyStrip_eq_self
    · intro c hc
      rw [joinWith_head? ' ' x xs hx.1] at hc
      apply pyStrip_head?_false x
      rw [hx.2]
      exact hc
    · intro c hc
      obtain ⟨last, hlast⟩ : ∃ last, (x :: xs).getLast? = some last := by
        cases hg : (x :: xs).getLast? with
        | none => rw [List.getLast?_eq_none_iff] at hg; simp at hg
        | some d => exact ⟨d, rfl⟩
      have hlmem := List.mem_of_mem_getLast? hlast
      have hl := h last hlmem
      rw [joinWith_getLast? ' ' (x :: xs) last hlast hl.1] at hc
      apply pyStrip_getLast?_false last
      rw [hl.2]
      exact hc

theorem matchNumSpace_ne_nil (l : Line) (h : matchNumSpace l = true) : l ≠ [] := by
  intro he
  subst he
  exact absurd h (by decide)

theorem matchNumTitle_stripped (l num t : Line) (hs : pyStrip l = l)
    (h : matchNumTitle l = some (num, t)) : t ≠ [] ∧ pyStrip t = t := by
  rw [matchNumTitle] at h
  cases hds : (l.takeWhile Char.isDigit).isEmpty with
  | true => simp [hds] at h
  | false =>
    simp only [hds, Bool.false_eq_true, if_false] at h
    cases hw : ((l.dropWhile Char.isDigit).takeWhile pyIsSpace).isEmpty with
    | true => simp [hw] at h
    | false =>
      simp only [hw, Bool.false_eq_true, if_false] at h
      have hrne : l.dropWhile Char.isDigit ≠ [] := by
        intro he
        rw [he] at hw
        simp at hw
      have hlne : l ≠ [] := by
        intro he
        subst he
        simp at hrne
      have hlast : ∀ c, l.getLast? = some c → pyIsSpace c = false := by
        intro c hc
        exact pyStrip_getLast?_false l c (by rw [hs]; exact hc)
      cases hrest : ((l.dropWhile Char.isDigit).dropWhile pyIsSpace).isEmpty with
      | false =>
        simp only [hrest, Bool.not_false, if_pos rfl, Option.some_inj, Prod.mk.injEq] at h
        obtain ⟨hnum, ht'⟩ :=
          (by simpa using h : l.takeWhile Char.isDigit = num ∧
            (l.dropWhile Char.isDigit).dropWhile pyIsSpace = t)
        have ht := ht'.symm
        have htne : t ≠ [] := by
          rw [ht]
          intro he
          rw [he] at hrest
          simp at hrest
        refine ⟨htne, pyStrip_eq_self t ?_ ?_⟩
        · intro c hc
          rw [ht] at hc
          exact dropWhile_head?_false pyIsSpace _ c hc
        · intro c hc
          rw [ht] at hc
          rw [dropWhile_getLast?_eq pyIsSpace _ (ht ▸ htne)] at hc
          rw [dropWhile_getLast?_eq Char.isDigit _ hrne] at hc
          exact hlast c hc
      | true =>
        exfalso
        have hreq : l.dropWhile Char.isDigit =
            (l.dropWhile Char.isDigit).takeWhile pyIsSpace := by
          conv_lhs => rw [← List.takeWhile_append_dropWhile
            (p := pyIsSpace) (l := l.dropWhile Char.isDigit)]
          rw [List.isEmpty_iff.mp hrest]
          simp
        obtain ⟨c, hc⟩ : ∃ c, (l.dropWhile Char.isDigit).getLast? = some c := by
          cases hg : (l.dropWhile Char.isDigit).getLast? with
          | none =>
            rw [List.getLast?_eq_none_iff] at hg
            exact absurd hg hrne
          | some c => exact ⟨c, rfl⟩
        have hcsp : pyIsSpace c = true := by
          apply mem_takeWhile_sat pyIsSpace (l.dropWhile Char.isDigit)
          rw [← hreq]
          exact List.mem_of_mem_getLast? hc
        have : pyIsSpace c = false := by
          apply hlast
          rw [← dropWhile_getLast?_eq Char.isDigit l hrne]
          exact hc
        rw [hcsp] at this
        exact absurd this (by decide)

namespace StructureDetector

theorem chorusGo_le (lines : List Line) (fuel : Nat) :
    ∀ j acc, j ≤ (chorusGo lines fuel j acc).2 := by
  induction fuel with
  | zero => intro j acc; exact Nat.le_refl j
  | succ f ih =>
    intro j acc
    simp only [chorusGo]
    split_ifs with h1 h2 h3 h4
    · exact Nat.le_trans (Nat.le_succ j) (ih (j + 1) acc)
    · exact Nat.le_refl j
    · exact Nat.le_refl j
    · exact Nat.le_trans (Nat.le_succ j) (ih (j + 1) (acc ++ [pyStrip (lines.getD j [])]))
    · exact Nat.le_refl j

theorem chorusGo_len (lines : List Line) (fuel : Nat) :
    ∀ j acc, ((chorusGo lines fuel j acc).1).length ≤ acc.length + fuel := by
  induction fuel with
  | zero => intro j acc; exact Nat.le_add_right _ 0
  | succ f ih =>
    intro j acc
    simp only [chorusGo]
    split_ifs with h1 h2 h3 h4
    · have := ih (j + 1) acc
      omega
    · simp
    · simp
    · have := ih (j + 1) (acc ++ [pyStrip (lines.getD j [])])
      simp only [List.length_append, List.length_cons, List.length_nil] at this
      omega
    · simp

theorem verseGo_le (lines : List Line) (fuel : Nat) :
    ∀ j acc, j ≤ (verseGo lines fuel j acc).2 := by
  induction fuel with
  | zero => intro j acc; exact Nat.le_refl j
  | succ f ih =>
    intro j acc
    simp only [verseGo]
    split_ifs with h1 h2 h3 h4
    · exact Nat.le_trans (Nat.le_succ j) (ih (j + 1) acc)
    · exact Nat.le_refl j
    · exact Nat.le_refl j
    · exact Nat.le_trans (Nat.le_succ j) (ih (j + 1) (acc ++ [pyStrip (lines.getD j [])]))
    · exact Nat.le_refl j

theorem unverseGo_le (lines : List Line) (fuel : Nat) :
    ∀ j acc, j ≤ (unverseGo lines fuel j acc).2 := by
  induction fuel with
  | zero => intro j acc; exact Nat.le_refl j
  | succ f ih =>
    intro j acc
    simp only [unverseGo]
    split_ifs with h1 h2 h3 h4
    · exact Nat.le_trans (Nat.le_succ j) (ih (j + 1) acc)
    · exact Nat.le_refl j
    · exact Nat.le_refl j
    · exact Nat.le_trans (Nat.le_succ j) (ih (j + 1) (acc ++ [pyStrip (lines.getD j [])]))
    · exact Nat.le_refl j

theorem verseGo_inv (lines : List Line) (fuel : Nat) :
    ∀ j acc, acc.length ≤ MAX_VERSE_LINES →
      (∀ l ∈ acc, l ≠ [] ∧ pyStrip l = l) →
      ((verseGo lines fuel j acc).1.length ≤ MAX_VERSE_LINES ∧
       acc.length ≤ (verseGo lines fuel j acc).1.length ∧
       ∀ l ∈ (verseGo lines fuel j acc).1, l ≠ [] ∧ pyStrip l = l) := by
  induction fuel with
  | zero => intro j acc h6 hc; exact ⟨h6, Nat.le_refl _, hc⟩
  | succ f ih =>
    intro j acc h6 hc
    simp only [verseGo]
    split_ifs with h1 h2 h3 h4
    · exact ih (j + 1) acc h6 hc
    · exact ⟨h6, Nat.le_refl _, hc⟩
    · exact ⟨h6, Nat.le_refl _, hc⟩
    · have hlt : acc.length < MAX_VERSE_LINES := h1
      have hnew : ∀ l ∈ acc ++ [pyStrip (lines.getD j [])], l ≠ [] ∧ pyStrip l = l := by
        intro l hl
        rcases List.mem_append.mp hl with hl | hl
        · exact hc l hl
        · rw [List.mem_singleton] at hl
          subst hl
          refine ⟨?_, pyStrip_idem _⟩
          intro he
          rw [he] at h2
          simp at h2
      have := ih (j + 1) (acc ++ [pyStrip (lines.getD j [])])
        (by simp only [List.length_append, List.length_cons, List.length_nil]; omega) hnew
      refine ⟨this.1, ?_, this.2.2⟩
      have := this.2.1
      simp only [List.length_append, List.length_cons, List.length_nil] at this
      omega
    · exact ⟨h6, Nat.le_refl _, hc⟩

theorem unverseGo_inv (lines : List Line) (fuel : Nat) :
    ∀ j acc, acc.length ≤ 4 →
      (∀ l ∈ acc, l ≠ [] ∧ pyStrip l = l) →
      ((unverseGo lines fuel j acc).1.length ≤ 4 ∧
       acc.length ≤ (unverseGo lines fuel j acc).1.length ∧
       ∀ l ∈ (unverseGo lines fuel j acc).1, l ≠ [] ∧ pyStrip l = l) := by
  induction fuel with
  | zero => intro j acc h4 hc; exact ⟨h4, Nat.le_refl _, hc⟩
  | succ f ih =>
    intro j acc h4 hc
    simp only [unverseGo]
    split_ifs with h1 h2 h3 h5
    · exact ih (j + 1) acc h4 hc
    · exact ⟨h4, Nat.le_refl _, hc⟩
    · exact ⟨h4, Nat.le_refl _, hc⟩
    · have hnew : ∀ l ∈ acc ++ [pyStrip (lines.getD j [])], l ≠ [] ∧ pyStrip l = l := by
        intro l hl
        rcases List.mem_append.mp hl with hl | hl
        · exact hc l hl
        · rw [List.mem_singleton] at hl
          subst hl
          refine ⟨?_, pyStrip_idem _⟩
          intro he
          rw [he] at h2
          simp at h2
      have := ih (j + 1) (acc ++ [pyStrip (lines.getD j [])])
        (by simp only [List.length_append, List.length_cons, List.length_nil]; omega) hnew
      refine ⟨this.1, ?_, this.2.2⟩
      have := this.2.1
      simp only [List.length_append, List.length_cons, List.length_nil] at this
      omega
    · exact ⟨h4, Nat.le_refl _, hc⟩

theorem verseGo_run (lines : List Line) : ∀ (n j : Nat) (acc : List Line),
    acc.length + n = MAX_VERSE_LINES →
    j + n ≤ lines.length →
    (∀ k, j ≤ k → k < j + n →
      (pyStrip (lines.getD k [])).isEmpty = false ∧
      matchNumSpace (pyStrip (lines.getD k [])) = false ∧
      isChorusLine (pyStrip (lines.getD k [])) = false) →
    verseGo lines (lines.length - j) j acc =
      (acc ++ (List.range' j n).map (fun k => pyStrip (lines.getD k [])), j + n) := by
  intro n
  induction n with
  | zero =>
    intro j acc h6 hlt helig
    have hfull : ¬ acc.length < MAX_VERSE_LINES := by omega
    cases hf : lines.length - j with
    | zero => simp [verseGo]
    | succ f => rw [verseGo]; simp [hfull]
  | succ m ih =>
    intro j acc h6 hlt helig
    have hj : j < lines.length := by omega
    have hf : lines.length - j = (lines.length - (j + 1)) + 1 := by omega
    rw [hf, verseGo]
    have hlt6 : acc.length < MAX_VERSE_LINES := by omega
    obtain ⟨hne, hnum, hch⟩ := helig j (Nat.le_refl j) (by omega)
    simp only [hlt6, if_true, hne, Bool.false_eq_true, if_false, hnum, hch]
    have ihr := ih (j + 1) (acc ++ [pyStrip (lines.getD j [])])
      (by simp only [List.length_append, List.length_cons, List.length_nil]; omega)
      (by omega)
      (by
        intro k hk1 hk2
        exact helig k (by omega) (by omega))
    rw [ihr]
    have hr : List.range' j (m + 1) = j :: List.range' (j + 1) m := rfl
    rw [hr]
    simp only [List.map_cons, List.append_assoc, List.singleton_append, Prod.mk.injEq]
    exact ⟨trivial, by omega⟩

end StructureDetector

/-- C1 counterexample: on the spec's detector-boundary input the detector
returns one single song, not the two songs the claim requires ("2 Second
Song" has only 3 words, so the unnumbered-verse collector absorbs it
instead of stopping). -/
theorem c1_counterexample :
    (StructureDetector.detectStructure c1Input).songs.length = 1 := by decide

/-- C1 (amended): on the detector-boundary input, detection produces
exactly one song, numbered "1" and titled "Amazing Grace", whose single
verse holds the three remaining lines (including the would-be header
"2 Second Song"), and an empty chorus. -/
theorem c1_theorem :
    (StructureDetector.detectStructure c1Input).songs =
      [⟨"1".data, "Amazing Grace".data,
        [⟨"1".data, ["How sweet the sound".data, "2 Second Song".data,
                     "More words here".data]⟩],
        []⟩] := by decide

/-- C2 counterexample: a bare leading-number line with at most 3 words
("1 ab") does not stop chorus collection — it is collected, and
collection continues past it. -/
theorem c2_counterexample :
    StructureDetector.extractChorus
        ["CHORUS".data, "1 ab".data, "word word".data] 0 =
      (["1 ab".data, "word word".data], 3) := by decide

/-- C2 (amended): chorus collection stops at a leading-number line only
when that line has more than 3 words; a bare leading-number line with at
most 3 words is collected as chorus content and the loop moves on. -/
theorem c2_theorem : ∀ (m l : Line),
    matchNumSpace (pyStrip l) = true →
    StructureDetector.isChorusLine (pyStrip l) = false →
    (((pyWords (pyStrip l)).length ≤ 3 →
       StructureDetector.extractChorus [m, l] 0 = ([pyStrip l], 2)) ∧
     (3 < (pyWords (pyStrip l)).length →
       StructureDetector.extractChorus [m, l] 0 = ([], 1))) := by
  intro m l h1 h2
  have hnil := matchNumSpace_ne_nil (pyStrip l) h1
  have hne : (pyStrip l).isEmpty = false := by
    cases hst : pyStrip l with
    | nil => exact absurd hst hnil
    | cons a t => rfl
  have hget : ([m, l].getD 1 []) = l := rfl
  constructor
  · intro h3
    have hd : decide (3 < (pyWords (pyStrip l)).length) = false := by
      simp only [decide_eq_false_iff_not]
      omega
    show StructureDetector.chorusGo [m, l] (28 + 1) 1 [] = ([pyStrip l], 2)
    rw [StructureDetector.chorusGo]
    simp only [hget, List.length_cons, List.length_nil, hne, Bool.false_eq_true,
      if_false, h1, hd, Bool.and_false, h2, if_true]
    norm_num
    show StructureDetector.chorusGo [m, l] (27 + 1) 2 [pyStrip l] = ([pyStrip l], 2)
    rw [StructureDetector.chorusGo]
    norm_num
  · intro h3
    have hd : decide (3 < (pyWords (pyStrip l)).length) = true := by
      simpa using h3
    show StructureDetector.chorusGo [m, l] (28 + 1) 1 [] = ([], 1)
    rw [StructureDetector.chorusGo]
    simp only [hget, List.length_cons, List.length_nil, hne, Bool.false_eq_true,
      if_false, h1, hd, Bool.and_true, if_true]
    norm_num

/-- C3 counterexample: the uppercase solfège letter 'S' is not counted by
the code's findall class (no IGNORECASE), while the claim's class counts
it; on the non-blank line "S" the code's numerator is 0 against the
claim's 1, over the same denominator 1. -/
theorem c3_counterexample :
    TextCleaner.musicalCharCount ['S'] = 0 ∧
    List.countP c3ClaimClass ['S'] = 1 ∧
    TextCleaner.totalCharCount ['S'] = 1 := by decide

/-- C3 (amended): the numerator of the musical-density ratio counts
exactly the characters of the amended class — colon, hyphen, period,
pipe, comma, apostrophe, the three mojibake characters â, €, ” (the
source's corrupted em-dash), and the lowercase letters s, m, d, f, t, l,
r, i; uppercase letters are never counted. -/
theorem c3_theorem : ∀ line : Line,
    TextCleaner.musicalCharCount line = List.countP c3AmendedClass line := by
  intro line
  have hfun : TextCleaner.inFindallClass = c3AmendedClass := by
    funext c
    rw [Bool.eq_iff_iff]
    constructor <;> intro h <;>
      simp only [TextCleaner.inFindallClass, c3AmendedClass, Bool.or_eq_true,
        beq_iff_eq] at h ⊢ <;> tauto
  rw [TextCleaner.musicalCharCount, hfun]

/-- C4 counterexample: `clean` is not idempotent.  On "SSSS- timid" the
first pass pattern-cleans the line to "imid" (the IGNORECASE solfège
pattern removes "SSSS- t"), which the second pass then removes as
predominantly musical, so cleaning twice differs from cleaning once. -/
theorem c4_counterexample :
    TextCleaner.clean (TextCleaner.clean c4Input) ≠ TextCleaner.clean c4Input := by
  decide

/-- C7 counterexample: after a chorus marker followed by 40 eligible
non-blank lines (more than 30), the collected chorus has 29 lines, not
the 30 the claim states. -/
theorem c7_counterexample :
    (StructureDetector.extractChorus
        ("CHORUS".data :: List.replicate 40 "la la".data) 0).1.length = 29 := by
  decide

/-- C7 (amended): the chorus window bounds the cursor offset, not the
collected count: a chorus block never holds more than 29 lines
(`MAX_CHORUS_LINES - 1`), and an oversupplied marker yields exactly 29. -/
theorem c7_theorem : ∀ (lines : List Line) (i : Nat),
    (StructureDetector.extractChorus lines i).1.length ≤ 29 := by
  intro lines i
  have h := StructureDetector.chorusGo_len lines
    (StructureDetector.MAX_CHORUS_LINES - 1) (i + 1) []
  simpa [StructureDetector.extractChorus, StructureDetector.MAX_CHORUS_LINES] using h

/-- C8 counterexample: on ["1 ab", "cd", "2 xx"] the collection loop
consumes through index 2 (it returns resume cursor 2 having collected
"cd"), yet the non-emitting extraction returns cursor 1 = i + 1 — the
cursor does not advance past the consumed lines. -/
theorem c8_counterexample :
    StructureDetector.verseGo ["1 ab".data, "cd".data, "2 xx".data] 2 1 ["ab".data] =
        (["ab".data, "cd".data], 2) ∧
    StructureDetector.extractNumberedVerse
        ["1 ab".data, "cd".data, "2 xx".data] 0 "1".data "ab".data = (none, 1) := by
  exact ⟨by decide, by decide⟩

/-- C8 (amended): whenever the numbered-verse rule emits no verse (too
many words or joined text too short), the cursor advances by exactly 1,
even when the collection loop consumed lines beyond the current one. -/
theorem c8_theorem : ∀ (lines : List Line) (i : Nat) (num text : Line),
    (StructureDetector.extractNumberedVerse lines i num text).1 = none →
    (StructureDetector.extractNumberedVerse lines i num text).2 = i + 1 := by
  intro lines i num text h
  unfold StructureDetector.extractNumberedVerse at h ⊢
  by_cases h15 : (pyWords text).length ≤ 15
  · simp only [h15, if_true] at h ⊢
    by_cases h10 : 10 < (pyStrip (joinWith ' '
        (StructureDetector.verseGo lines (lines.length - (i + 1)) (i + 1) [text]).1)).length
    · simp only [h10, if_true] at h
      exact absurd h (by simp)
    · simp only [h10, if_false]
  · simp only [h15, if_false]

/-- C8 witness: the amended statement at the counterexample input. -/
theorem c8_witness :
    (StructureDetector.extractNumberedVerse
        ["1 ab".data, "cd".data, "2 xx".data] 0 "1".data "ab".data).2 = 0 + 1 :=
  c8_theorem ["1 ab".data, "cd".data, "2 xx".data] 0 "1".data "ab".data (by decide)

/-- C2 witness: the amended chorus-stop behavior on a concrete marker and
a concrete 2-word leading-number line. -/
theorem c2_witness :
    StructureDetector.extractChorus ["CHORUS".data, "1 ab".data] 0 =
      ([pyStrip "1 ab".data], 2) :=
  have h := c2_theorem "CHORUS".data "1 ab".data (by decide) (by decide)
  h.1 (by decide)

/-- C6: a numbered verse start (at most 15 captured words) followed by 50
eligible lines — non-blank, not leading-number, not chorus-keyword —
emits a verse with exactly 6 lines (the `MAX_VERSE_LINES` cap, seed line
included) and resumes at `i + 6`. -/
theorem c6_theorem : ∀ (lines : List Line) (i : Nat) (num text : Line),
    (pyWords text).length ≤ 15 →
    text ≠ [] →
    pyStrip text = text →
    (∀ k ∈ List.range' (i + 1) 50,
      (pyStrip (lines.getD k [])).isEmpty = false ∧
      matchNumSpace (pyStrip (lines.getD k [])) = false ∧
      StructureDetector.isChorusLine (pyStrip (lines.getD k [])) = false) →
    i + 50 < lines.length →
    ∃ v, StructureDetector.extractNumberedVerse lines i num text = (some v, i + 6) ∧
      v.lines.length = 6 := by
  intro lines i num text hw hne hst helig hlen
  have helig' : ∀ k, i + 1 ≤ k → k < i + 1 + 5 →
      (pyStrip (lines.getD k [])).isEmpty = false ∧
      matchNumSpace (pyStrip (lines.getD k [])) = false ∧
      StructureDetector.isChorusLine (pyStrip (lines.getD k [])) = false := by
    intro k hk1 hk2
    exact helig k (List.mem_range'_1.mpr ⟨hk1, by omega⟩)
  have hrun := StructureDetector.verseGo_run lines 5 (i + 1) [text]
    (by norm_num [StructureDetector.MAX_VERSE_LINES]) (by omega) helig'
  have hmemL : ∀ l ∈ [text] ++
      (List.range' (i + 1) 5).map (fun k => pyStrip (lines.getD k [])),
      l ≠ [] ∧ pyStrip l = l := by
    intro l hl
    rcases List.mem_append.mp hl with hl | hl
    · rw [List.mem_singleton] at hl
      subst hl
      exact ⟨hne, hst⟩
    · rw [List.mem_map] at hl
      obtain ⟨k, hk, hkl⟩ := hl
      subst hkl
      obtain ⟨hk1, hk2⟩ := List.mem_range'_1.mp hk
      obtain ⟨he, -, -⟩ := helig k (List.mem_range'_1.mpr ⟨hk1, by omega⟩)
      refine ⟨?_, pyStrip_idem _⟩
      intro hz
      rw [hz] at he
      simp at he
  have hlen11 : 11 ≤ (joinWith ' '
      ([text] ++ (List.range' (i + 1) 5).map (fun k => pyStrip (lines.getD k [])))).length := by
    have hb := joinWith_length_ge ' '
      ([text] ++ (List.range' (i + 1) 5).map (fun k => pyStrip (lines.getD k [])))
      (fun l hl => (hmemL l hl).1)
    simp only [List.length_append, List.length_map, List.length_range',
      List.length_cons, List.length_nil] at hb
    omega
  have hsj : pyStrip (joinWith ' '
      ([text] ++ (List.range' (i + 1) 5).map (fun k => pyStrip (lines.getD k [])))) =
      joinWith ' '
      ([text] ++ (List.range' (i + 1) 5).map (fun k => pyStrip (lines.getD k []))) :=
    pyStrip_joinWith _ (by simp) hmemL
  refine ⟨⟨num, [text] ++ (List.range' (i + 1) 5).map (fun k => pyStrip (lines.getD k []))⟩,
    ?_, ?_⟩
  · unfold StructureDetector.extractNumberedVerse
    simp only [hw, if_true]
    rw [hrun]
    simp only [hsj]
    rw [if_pos (by omega)]
  · simp only [List.length_append, List.length_map, List.length_range',
      List.length_cons, List.length_nil]

/-- C6 witness: the cap at a concrete input with 50 following lines. -/
theorem c6_witness :
    ∃ v, StructureDetector.extractNumberedVerse
        ("1 word word".data :: List.replicate 50 "la la".data) 0
        "1".data "word word".data = (some v, 0 + 6) ∧ v.lines.length = 6 :=
  c6_theorem ("1 word word".data :: List.replicate 50 "la la".data) 0
    "1".data "word word".data (by decide) (by decide) (by decide) (by decide) (by decide)

namespace StructureDetector

theorem detectGo_songs_valid (lines : List Line) (fuel : Nat) :
    ∀ st s, s ∈ (detectGo lines fuel st).2 →
      (!s.verses.isEmpty || !s.chorus.isEmpty) = true := by
  induction fuel with
  | zero =>
    intro st s hs
    simp only [detectGo, finalizeSongs, filterValidSongs] at hs
    exact (List.mem_filter.mp hs).2
  | succ f ih =>
    intro st s hs
    rw [detectGo] at hs
    by_cases h : st.i < lines.length
    · rw [if_pos h] at hs
      exact ih _ s hs
    · rw [if_neg h] at hs
      simp only [finalizeSongs, filterValidSongs] at hs
      exact (List.mem_filter.mp hs).2

theorem extractChorus_i_lt (lines : List Line) (i : Nat) :
    i < (extractChorus lines i).2 :=
  Nat.lt_of_lt_of_le (Nat.lt_succ_self i)
    (chorusGo_le lines (MAX_CHORUS_LINES - 1) (i + 1) [])

theorem extractNumberedVerse_i_lt (lines : List Line) (i : Nat) (num text : Line) :
    i < (extractNumberedVerse lines i num text).2 := by
  simp only [extractNumberedVerse]
  split_ifs with h1 h2
  · exact Nat.lt_of_lt_of_le (Nat.lt_succ_self i)
      (verseGo_le lines (lines.length - (i + 1)) (i + 1) [text])
  · exact Nat.lt_succ_self i
  · exact Nat.lt_succ_self i

theorem extractUnnumberedVerse_i_lt (lines : List Line) (i : Nat) (s : Song) :
    i < (extractUnnumberedVerse lines i s).2 := by
  simp only [extractUnnumberedVerse]
  split_ifs with h1
  · exact Nat.lt_of_lt_of_le (Nat.lt_succ_self i)
      (unverseGo_le lines (lines.length - (i + 1)) (i + 1) [pyStrip (lines.getD i [])])
  · exact Nat.lt_of_lt_of_le (Nat.lt_succ_self i)
      (unverseGo_le lines (lines.length - (i + 1)) (i + 1) [pyStrip (lines.getD i [])])

theorem detectStep_i_lt (lines : List Line) (st : DetState) :
    st.i < (detectStep lines st).i := by
  unfold detectStep
  by_cases h0 : (pyStrip (lines.getD st.i [])).isEmpty = true
  · rw [if_pos h0]
    exact Nat.lt_succ_self _
  · rw [if_neg h0]
    simp only
    split_ifs with h1 h2 h3 h4 h5
    · cases hm : matchNumTitle (pyStrip (lines.getD st.i [])) with
      | none => exact Nat.lt_succ_self _
      | some p =>
        cases p with
        | mk num t => exact Nat.lt_succ_self _
    · exact Nat.lt_succ_self _
    · cases hc : st.cur with
      | none => exact Nat.lt_succ_self _
      | some s => exact extractChorus_i_lt lines st.i
    · cases hm : matchNumTitle (pyStrip (lines.getD st.i [])) with
      | none =>
        cases hc : st.cur with
        | none => exact Nat.lt_succ_self _
        | some s => exact Nat.lt_succ_self _
      | some p =>
        cases p with
        | mk num t =>
          cases hc : st.cur with
          | none => exact Nat.lt_succ_self _
          | some s => exact extractNumberedVerse_i_lt lines st.i num t
    · cases hc : st.cur with
      | none => exact Nat.lt_succ_self _
      | some s => exact extractUnnumberedVerse_i_lt lines st.i s
    · exact Nat.lt_succ_self _

theorem detectGo_fuel_mono (lines : List Line) :
    ∀ fuel₁ fuel₂ st, lines.length ≤ st.i + fuel₁ → fuel₁ ≤ fuel₂ →
      detectGo lines fuel₁ st = detectGo lines fuel₂ st := by
  intro fuel₁
  induction fuel₁ with
  | zero =>
    intro fuel₂ st hlen hle
    cases fuel₂ with
    | zero => rfl
    | succ f =>
      rw [detectGo, detectGo]
      rw [if_neg (by omega)]
  | succ f₁ ih =>
    intro fuel₂ st hlen hle
    cases fuel₂ with
    | zero => exact absurd hle (by omega)
    | succ f₂ =>
      rw [detectGo, detectGo]
      by_cases h : st.i < lines.length
      · rw [if_pos h, if_pos h]
        apply ih
        · have := detectStep_i_lt lines st
          omega
        · omega
      · rw [if_neg h, if_neg h]

end StructureDetector

/-- C5: every song of the final document has at least one verse or a
non-empty chorus — the final filter discards empty scaffolding. -/
theorem c5_theorem : ∀ (text : Line) (s : Song),
    s ∈ (StructureDetector.detectStructure text).songs →
    s.verses ≠ [] ∨ s.chorus ≠ [] := by
  intro text s hs
  simp only [StructureDetector.detectStructure] at hs
  have h := StructureDetector.detectGo_songs_valid (splitOnChar '\n' text)
    (splitOnChar '\n' text).length ⟨0, [], [], none⟩ s hs
  simp only [Bool.or_eq_true] at h
  rcases h with h | h
  · left
    intro he
    rw [he] at h
    simp at h
  · right
    intro he
    rw [he] at h
    simp at h

/-- C5 witness: the invariant at a concrete detected song. -/
theorem c5_witness :
    (⟨"1".data, "Song Title".data, [⟨"1".data, ["la la la la".data]⟩], []⟩ : Song).verses ≠ [] ∨
    (⟨"1".data, "Song Title".data, [⟨"1".data, ["la la la la".data]⟩], []⟩ : Song).chorus ≠ [] :=
  c5_theorem sampleInput
    ⟨"1".data, "Song Title".data, [⟨"1".data, ["la la la la".data]⟩], []⟩ (by decide)

/-- C9: termination of the detection loop on every finite input — the
cursor strictly increases on every iteration, and any fuel at least
`lines.length - st.i` (in particular the `lines.length` used by
`detectStructure`) yields the loop's stable result. -/
theorem c9_theorem : ∀ (lines : List Line) (st : StructureDetector.DetState) (fuel : Nat),
    st.i < (StructureDetector.detectStep lines st).i ∧
    (lines.length ≤ st.i + fuel →
      StructureDetector.detectGo lines fuel st =
        StructureDetector.detectGo lines (lines.length - st.i) st) := by
  intro lines st fuel
  refine ⟨StructureDetector.detectStep_i_lt lines st, ?_⟩
  intro h
  rcases Nat.le_total fuel (lines.length - st.i) with hle | hle
  · exact StructureDetector.detectGo_fuel_mono lines fuel (lines.length - st.i) st h hle
  · exact (StructureDetector.detectGo_fuel_mono lines (lines.length - st.i) fuel st
      (by omega) hle).symm

/-- C9 witness: cursor increase and fuel-stability on a concrete input. -/
theorem c9_witness :
    (0 : Nat) < (StructureDetector.detectStep (splitOnChar '\n' sampleInput)
      ⟨0, [], [], none⟩).i ∧
    StructureDetector.detectGo (splitOnChar '\n' sampleInput) 7 ⟨0, [], [], none⟩ =
      StructureDetector.detectGo (splitOnChar '\n' sampleInput)
        ((splitOnChar '\n' sampleInput).length - 0) ⟨0, [], [], none⟩ :=
  ⟨(c9_theorem (splitOnChar '\n' sampleInput) ⟨0, [], [], none⟩ 7).1,
   (c9_theorem (splitOnChar '\n' sampleInput) ⟨0, [], [], none⟩ 7).2 (by decide)⟩

namespace StructureDetector

theorem extractNumberedVerse_good (lines : List Line) (i : Nat) (num text : Line)
    (hne : text ≠ []) (hst : pyStrip text = text) (v : Verse)
    (h : (extractNumberedVerse lines i num text).1 = some v) : GoodVerse v := by
  simp only [extractNumberedVerse] at h
  split_ifs at h with h15 h10
  · simp only [Option.some_inj] at h
    subst h
    have hinv := verseGo_inv lines (lines.length - (i + 1)) (i + 1) [text]
      (by norm_num [MAX_VERSE_LINES])
      (by
        intro l hl
        rw [List.mem_singleton] at hl
        subst hl
        exact ⟨hne, hst⟩)
    refine ⟨?_, ?_, hinv.2.2⟩
    · have h1 := hinv.2.1
      simp only [List.length_cons, List.length_nil] at h1
      show 1 ≤ (verseGo lines (lines.length - (i + 1)) (i + 1) [text]).1.length
      omega
    · have h1 := hinv.1
      simp only [MAX_VERSE_LINES] at h1
      show (verseGo lines (lines.length - (i + 1)) (i + 1) [text]).1.length ≤ 6
      omega

theorem extractUnnumberedVerse_good (lines : List Line) (i : Nat) (s : Song)
    (hne : pyStrip (lines.getD i []) ≠ []) (v : Verse)
    (h : (extractUnnumberedVerse lines i s).1 = some v) : GoodVerse v := by
  simp only [extractUnnumberedVerse] at h
  split_ifs at h with hc
  · simp only [Option.some_inj] at h
    subst h
    have hinv := unverseGo_inv lines (lines.length - (i + 1)) (i + 1)
      [pyStrip (lines.getD i [])]
      (by norm_num)
      (by
        intro l hl
        rw [List.mem_singleton] at hl
        subst hl
        exact ⟨hne, pyStrip_idem _⟩)
    refine ⟨?_, ?_, hinv.2.2⟩
    · have h1 := hinv.2.1
      simp only [List.length_cons, List.length_nil] at h1
      show 1 ≤ (unverseGo lines (lines.length - (i + 1)) (i + 1)
        [pyStrip (lines.getD i [])]).1.length
      omega
    · have h1 := hinv.1
      show (unverseGo lines (lines.length - (i + 1)) (i + 1)
        [pyStrip (lines.getD i [])]).1.length ≤ 6
      omega

theorem detectStep_good (lines : List Line) (st : DetState) (h : GoodState st) :
    GoodState (detectStep lines st) := by
  obtain ⟨hsongs, hcur⟩ := h
  unfold detectStep
  by_cases h0 : (pyStrip (lines.getD st.i [])).isEmpty = true
  · rw [if_pos h0]
    exact ⟨hsongs, hcur⟩
  · rw [if_neg h0]
    simp only
    split_ifs with h1 h2 h3 h4 h5
    · -- header branch
      cases hm : matchNumTitle (pyStrip (lines.getD st.i [])) with
      | none => exact ⟨hsongs, hcur⟩
      | some p =>
        cases p with
        | mk num t =>
          refine ⟨?_, ?_⟩
          · intro s hs v hv
            cases hc : st.cur with
            | none =>
              simp only [hc] at hs
              exact hsongs s hs v hv
            | some sc =>
              simp only [hc] at hs
              rcases List.mem_append.mp hs with hs | hs
              · exact hsongs s hs v hv
              · rw [List.mem_singleton] at hs
                subst hs
                exact hcur s hc v hv
          · intro s hs v hv
            simp only [Option.some_inj] at hs
            subst hs
            simp at hv
    · exact ⟨hsongs, hcur⟩
    · -- chorus branch
      cases hc : st.cur with
      | none =>
        dsimp only
        refine ⟨hsongs, ?_⟩
        intro s hs v hv
        simp at hs
      | some sc =>
        dsimp only
        refine ⟨hsongs, ?_⟩
        intro s hs v hv
        simp only [Option.some_inj] at hs
        subst hs
        exact hcur _ hc v hv
    · -- numbered-verse branch
      cases hm : matchNumTitle (pyStrip (lines.getD st.i [])) with
      | none =>
        cases hc : st.cur with
        | none =>
          dsimp only
          refine ⟨hsongs, ?_⟩
          intro s hs v hv
          simp at hs
        | some sc =>
          dsimp only
          refine ⟨hsongs, ?_⟩
          intro s hs v hv
          simp only [Option.some_inj] at hs
          subst hs
          exact hcur _ hc v hv
      | some p =>
        cases p with
        | mk num t =>
          cases hc : st.cur with
          | none =>
            dsimp only
            refine ⟨hsongs, ?_⟩
            intro s hs v hv
            simp at hs
          | some sc =>
            dsimp only
            refine ⟨hsongs, ?_⟩
            intro s hs v hv
            simp only [Option.some_inj] at hs
            subst hs
            rcases List.mem_append.mp hv with hv | hv
            · exact hcur _ hc v hv
            · obtain ⟨htne, htst⟩ := matchNumTitle_stripped
                (pyStrip (lines.getD st.i [])) num t (pyStrip_idem _) hm
              cases hx : (extractNumberedVerse lines st.i num t).1 with
              | none =>
                rw [hx] at hv
                simp at hv
              | some w =>
                rw [hx] at hv
                rw [List.mem_singleton] at hv
                subst hv
                exact extractNumberedVerse_good lines st.i num t htne htst v hx
    · -- unnumbered-verse branch
      cases hc : st.cur with
      | none =>
        dsimp only
        refine ⟨hsongs, ?_⟩
        intro s hs v hv
        simp at hs
      | some sc =>
        dsimp only
        refine ⟨hsongs, ?_⟩
        intro s hs v hv
        simp only [Option.some_inj] at hs
        subst hs
        rcases List.mem_append.mp hv with hv | hv
        · exact hcur _ hc v hv
        · have hne : pyStrip (lines.getD st.i []) ≠ [] := by
            intro he
            rw [he] at h0
            exact h0 rfl
          cases hx : (extractUnnumberedVerse lines st.i _).1 with
          | none =>
            rw [hx] at hv
            simp at hv
          | some w =>
            rw [hx] at hv
            rw [List.mem_singleton] at hv
            subst hv
            exact extractUnnumberedVerse_good lines st.i _ hne v hx
    · exact ⟨hsongs, hcur⟩

theorem detectGo_good (lines : List Line) (fuel : Nat) :
    ∀ st, GoodState st → ∀ s ∈ (detectGo lines fuel st).2, ∀ v ∈ s.verses, GoodVerse v := by
  induction fuel with
  | zero =>
    intro st hst s hs v hv
    simp only [detectGo, finalizeSongs, filterValidSongs] at hs
    have hs' := (List.mem_filter.mp hs).1
    cases hc : st.cur with
    | none =>
      rw [hc] at hs'
      exact hst.1 s hs' v hv
    | some sc =>
      rw [hc] at hs'
      rcases List.mem_append.mp hs' with hs' | hs'
      · exact hst.1 s hs' v hv
      · rw [List.mem_singleton] at hs'
        subst hs'
        exact hst.2 _ hc v hv
  | succ f ih =>
    intro st hst s hs v hv
    rw [detectGo] at hs
    by_cases h : st.i < lines.length
    · rw [if_pos h] at hs
      exact ih _ (detectStep_good lines st hst) s hs v hv
    · rw [if_neg h] at hs
      simp only [finalizeSongs, filterValidSongs] at hs
      have hs' := (List.mem_filter.mp hs).1
      cases hc : st.cur with
      | none =>
        rw [hc] at hs'
        exact hst.1 s hs' v hv
      | some sc =>
        rw [hc] at hs'
        rcases List.mem_append.mp hs' with hs' | hs'
        · exact hst.1 s hs' v hv
        · rw [List.mem_singleton] at hs'
          subst hs'
          exact hst.2 _ hc v hv

end StructureDetector

/-- C10: every verse of every song of the final document has between 1
and 6 lines, and each stored line is non-empty with no leading or
trailing whitespace. -/
theorem c10_theorem : ∀ (text : Line) (s : Song) (v : Verse),
    s ∈ (StructureDetector.detectStructure text).songs →
    v ∈ s.verses →
    1 ≤ v.lines.length ∧ v.lines.length ≤ 6 ∧
      ∀ l ∈ v.lines, l ≠ [] ∧ pyStrip l = l := by
  intro text s v hs hv
  simp only [StructureDetector.detectStructure] at hs
  exact StructureDetector.detectGo_good (splitOnChar '\n' text)
    (splitOnChar '\n' text).length ⟨0, [], [], none⟩
    ⟨by simp, by simp⟩ s hs v hv

/-- C10 witness: the verse invariant at a concrete detected verse. -/
theorem c10_witness :
    1 ≤ (⟨"1".data, ["la la la la".data]⟩ : Verse).lines.length ∧
    (⟨"1".data, ["la la la la".data]⟩ : Verse).lines.length ≤ 6 ∧
    ∀ l ∈ (⟨"1".data, ["la la la la".data]⟩ : Verse).lines, l ≠ [] ∧ pyStrip l = l :=
  c10_theorem sampleInput
    ⟨"1".data, "Song Title".data, [⟨"1".data, ["la la la la".data]⟩], []⟩
    ⟨"1".data, ["la la la la".data]⟩ (by decide) (by decide)

theorem joinWith_mem (sep : Char) (ls : List (List Char)) (c : Char)
    (h : c ∈ joinWith sep ls) : c = sep ∨ ∃ l ∈ ls, c ∈ l := by
  induction ls with
  | nil => simp [joinWith] at h
  | cons x xs ih =>
    cases xs with
    | nil =>
      right
      exact ⟨x, by simp, h⟩
    | cons y ys =>
      have hj : joinWith sep (x :: y :: ys) = x ++ sep :: joinWith sep (y :: ys) := rfl
      rw [hj] at h
      rcases List.mem_append.mp h with h | h
      · right
        exact ⟨x, by simp, h⟩
      · rcases List.mem_cons.mp h with h | h
        · left
          exact h
        · rcases ih h with h | ⟨l, hl, hcl⟩
          · left
            exact h
          · right
            exact ⟨l, List.mem_cons_of_mem x hl, hcl⟩

namespace TextCleaner

theorem applyPatternCleaning_shape (y : Line) :
    pyStrip (applyPatternCleaning y) = applyPatternCleaning y ∧
    '\n' ∉ applyPatternCleaning y := by
  have heq : applyPatternCleaning y =
      joinWith ' ' (pyWords (MUSICAL_PATTERNS.foldl (fun l p => reSub p l) y)) := rfl
  rw [heq]
  generalize (MUSICAL_PATTERNS.foldl (fun l p => reSub p l) y) = z
  have hws := pyWords_sound z
  constructor
  · cases hv : pyWords z with
    | nil => simp [joinWith, pyStrip]
    | cons w ws =>
      apply pyStrip_joinWith
      · simp
      · intro l hl
        rw [← hv] at hl
        obtain ⟨hlne, hlch⟩ := hws l hl
        refine ⟨hlne, pyStrip_eq_self l ?_ ?_⟩
        · intro c hc
          apply hlch
          cases l with
          | nil => simp at hc
          | cons a t =>
            simp only [List.head?_cons, Option.some_inj] at hc
            subst hc
            exact List.mem_cons_self a t
        · intro c hc
          exact hlch c (List.mem_of_mem_getLast? hc)
  · intro hmem
    rcases joinWith_mem ' ' (pyWords z) '\n' hmem with h | ⟨l, hl, hcl⟩
    · exact absurd h (by decide)
    · obtain ⟨-, hlch⟩ := hws l hl
      have := hlch '\n' hcl
      exact absurd this (by decide)

theorem hasValidContent_ne_nil (l : Line) (h : hasValidContent l = true) : l ≠ [] := by
  intro he
  subst he
  exact absurd h (by decide)

set_option maxHeartbeats 1000000 in
theorem cleanLines_mem (xs : List Line) :
    ∀ l ∈ cleanLines xs, hasValidContent l = true ∧ ∃ y, l = applyPatternCleaning y := by
  induction xs with
  | nil => intro l hl; simp [cleanLines] at hl
  | cons x rest ih =>
    intro l hl
    have hstep : cleanLines (x :: rest) =
        (if (pyStrip x).isEmpty = true then cleanLines rest
         else if isMusicalLine (pyStrip x) = true then cleanLines rest
         else if hasValidContent (applyPatternCleaning (pyStrip x)) = true then
           applyPatternCleaning (pyStrip x) :: cleanLines rest
         else cleanLines rest) := rfl
    rw [hstep] at hl
    split_ifs at hl with hb hm hv
    · exact ih l hl
    · exact ih l hl
    · rcases List.mem_cons.mp hl with hl | hl
      · refine ⟨?_, pyStrip x, hl⟩
        rw [hl]
        exact hv
      · exact ih l hl
    · exact ih l hl

set_option maxHeartbeats 1000000 in
theorem cleanLines_fixed (ls : List Line)
    (h : ∀ l ∈ ls, pyStrip l = l ∧ isMusicalLine l = false ∧
        applyPatternCleaning l = l ∧ hasValidContent l = true) :
    cleanLines ls = ls := by
  induction ls with
  | nil => rfl
  | cons x rest ih =>
    obtain ⟨hst, hm, hp, hv⟩ := h x (by simp)
    have hne : x.isEmpty = false := by
      cases hx : x with
      | nil => exact absurd (hx ▸ hv) (by decide)
      | cons a t => rfl
    have hstep : cleanLines (x :: rest) =
        (if (pyStrip x).isEmpty = true then cleanLines rest
         else if isMusicalLine (pyStrip x) = true then cleanLines rest
         else if hasValidContent (applyPatternCleaning (pyStrip x)) = true then
           applyPatternCleaning (pyStrip x) :: cleanLines rest
         else cleanLines rest) := rfl
    rw [hstep, hst, hp]
    rw [if_neg (by rw [hne]; exact Bool.false_ne_true)]
    rw [if_neg (by rw [hm]; exact Bool.false_ne_true)]
    rw [if_pos hv]
    rw [ih (fun l hl => h l (List.mem_cons_of_mem x hl))]

end TextCleaner

/-- C4 (amended): `clean` is idempotent on its own output provided no
output line is predominantly musical and pattern substitution leaves each
output line unchanged; on general input idempotence fails (see the
counterexample), because pattern cleaning can strip a line down to a
remnant that only the second pass classifies as musical. -/
theorem c4_theorem : ∀ (text : Line),
    (∀ l ∈ TextCleaner.cleanLines (splitOnChar '\n' text),
        TextCleaner.isMusicalLine l = false ∧
        TextCleaner.applyPatternCleaning l = l) →
    TextCleaner.clean (TextCleaner.clean text) = TextCleaner.clean text := by
  intro text h
  have hmem := TextCleaner.cleanLines_mem (splitOnChar '\n' text)
  have hprops : ∀ l ∈ TextCleaner.cleanLines (splitOnChar '\n' text),
      pyStrip l = l ∧ TextCleaner.isMusicalLine l = false ∧
      TextCleaner.applyPatternCleaning l = l ∧
      TextCleaner.hasValidContent l = true := by
    intro l hl
    obtain ⟨hv, y, hy⟩ := hmem l hl
    obtain ⟨hm, hp⟩ := h l hl
    have hshape := TextCleaner.applyPatternCleaning_shape y
    exact ⟨by rw [hy]; exact hshape.1, hm, hp, hv⟩
  have hnl : ∀ l ∈ TextCleaner.cleanLines (splitOnChar '\n' text), '\n' ∉ l := by
    intro l hl
    obtain ⟨-, y, hy⟩ := hmem l hl
    rw [hy]
    exact (TextCleaner.applyPatternCleaning_shape y).2
  cases hk : TextCleaner.cleanLines (splitOnChar '\n' text) with
  | nil =>
    have h1 : TextCleaner.clean text = [] := by
      rw [TextCleaner.clean, hk]
      rfl
    rw [h1]
    decide
  | cons x xs =>
    have h1 : TextCleaner.clean text = joinWith '\n' (x :: xs) := by
      rw [TextCleaner.clean, hk]
    have hsplit : splitOnChar '\n' (joinWith '\n' (x :: xs)) = x :: xs :=
      splitOnChar_joinWith '\n' (x :: xs) (by simp)
        (fun l hl => hnl l (hk ▸ hl))
    calc TextCleaner.clean (TextCleaner.clean text)
        = TextCleaner.clean (joinWith '\n' (x :: xs)) := by rw [h1]
      _ = joinWith '\n' (TextCleaner.cleanLines (x :: xs)) := by
          rw [TextCleaner.clean, hsplit]
      _ = joinWith '\n' (x :: xs) := by
          rw [TextCleaner.cleanLines_fixed (x :: xs) (fun l hl => hprops l (hk ▸ hl))]
      _ = TextCleaner.clean text := h1.symm

/-- C4 witness: the conditional idempotence at a concrete prose input
whose cleaned output is musical-free and pattern-stable. -/
theorem c4_witness :
    TextCleaner.clean (TextCleaner.clean "hello world".data) =
      TextCleaner.clean "hello world".data :=
  c4_theorem "hello world".data (by decide)
